import Mathlib

/-!
# libmprompt `include/internal/util.h`: alignment, min/max and the guard cookie

A shallow embedding of the inline helpers of `util.h`.

* A pointer (`uint8_t*`, `void*`) is its integer address, a natural number
  below `2 ^ w`, where `w` is the pointer width in bits.
* `uintptr_t` and `size_t` are naturals below `2 ^ w`; their arithmetic is
  reduced modulo `2 ^ w`.
* `ssize_t` is an integer in `[SSIZE_MIN w, SSIZE_MAX w]`; additions,
  subtractions and multiplications are reduced to that range in two's
  complement, the way the compiled code computes them.  The predicate
  `mp_align_up_no_overflow` records when no intermediate value of
  `mp_align_up` leaves the range.
* `/` on `ssize_t` truncates toward zero (`Int.tdiv`).  A division is a
  partial operation: it yields `none` when the divisor is zero, and the signed
  division also when the quotient `SSIZE_MIN / -1` is not representable.
* The global `mp_guard_cookie` is passed explicitly; the compile-time
  switch `__CHERI__` is the boolean `cheri`.
* The C allocator (`malloc`, `calloc`) is passed explicitly as a function whose
  result `none` is the null pointer.  A call either returns or ends in the
  fatal reporter (`Outcome`).
-/

namespace Mprompt

/-! ## Machine integers -/

/-- Largest `ssize_t` at pointer width `w`. -/
def SSIZE_MAX (w : Nat) : Int := 2 ^ (w - 1) - 1

/-- Smallest `ssize_t` at pointer width `w`. -/
def SSIZE_MIN (w : Nat) : Int := -(2 ^ (w - 1))

/-- The value `v` is representable as an `ssize_t`. -/
def in_ssize (w : Nat) (v : Int) : Prop := SSIZE_MIN w ≤ v ∧ v ≤ SSIZE_MAX w

instance (w : Nat) (v : Int) : Decidable (in_ssize w v) := by
  unfold in_ssize; infer_instance

/-- Two's complement reduction of an integer to `ssize_t`. -/
def wrap_ssize (w : Nat) (v : Int) : Int :=
  if v % 2 ^ w < 2 ^ (w - 1) then v % 2 ^ w else v % 2 ^ w - 2 ^ w

/-- Conversion of an integer to `uintptr_t` / `size_t`: reduction modulo `2 ^ w`. -/
def to_uintptr (w : Nat) (v : Int) : Nat := (v % 2 ^ w).toNat

/-- The cast `(ssize_t)p` of an address or unsigned value. -/
def to_ssize (w : Nat) (a : Nat) : Int := wrap_ssize w (a : Int)

/-- Addition on `ssize_t`. -/
def sadd (w : Nat) (a b : Int) : Int := wrap_ssize w (a + b)

/-- Subtraction on `ssize_t`. -/
def ssub (w : Nat) (a b : Int) : Int := wrap_ssize w (a - b)

/-- Multiplication on `ssize_t`. -/
def smul (w : Nat) (a b : Int) : Int := wrap_ssize w (a * b)

/-- Division on `ssize_t`: truncates toward zero.  It is undefined for a zero
divisor and for `SSIZE_MIN / -1`, whose quotient is not representable: the
division instruction faults in both cases. -/
def sdiv (w : Nat) (a b : Int) : Option Int :=
  if b = 0 then none
  else if a = SSIZE_MIN w ∧ b = -1 then none
  else some (wrap_ssize w (Int.tdiv a b))

/-- Subtraction on `uintptr_t`. -/
def usub (w : Nat) (a b : Nat) : Nat := to_uintptr w ((a : Int) - (b : Int))

/-- Multiplication on `uintptr_t`. -/
def umul (w : Nat) (a b : Nat) : Nat := (a * b) % 2 ^ w

/-- Division on `uintptr_t`; undefined for a zero divisor. -/
def udiv (a b : Nat) : Option Nat :=
  if b = 0 then none else some (a / b)

/-- Pointer plus signed offset, `p + diff`, on the address. -/
def ptr_add (w : Nat) (p : Nat) (diff : Int) : Nat := to_uintptr w ((p : Int) + diff)

/-! ## The functions of `util.h` -/

/-- Source `mp_align_up`: `(d == 0 ? x : ((x + d - 1) / d) * d)` on `ssize_t`. -/
def mp_align_up (w : Nat) (x d : Int) : Option Int :=
  if d = 0 then some x
  else (sdiv w (ssub w (sadd w x d) 1) d).map fun q => smul w q d

/-- No intermediate value of `mp_align_up x d` leaves the `ssize_t` range:
the sum `x + d`, the difference `x + d - 1`, the quotient and the product. -/
def mp_align_up_no_overflow (w : Nat) (x d : Int) : Prop :=
  d = 0 ∨ (in_ssize w (x + d) ∧ in_ssize w (x + d - 1) ∧
    in_ssize w (Int.tdiv (x + d - 1) d) ∧ in_ssize w (Int.tdiv (x + d - 1) d * d))

instance (w : Nat) (x d : Int) : Decidable (mp_align_up_no_overflow w x d) := by
  unfold mp_align_up_no_overflow; infer_instance

/-- Source `mp_align_up_ptr`: `diff = mp_align_up((ssize_t)p, d) - (ssize_t)p; return p + diff`. -/
def mp_align_up_ptr (w : Nat) (p : Nat) (d : Int) : Option Nat :=
  (mp_align_up w (to_ssize w p) d).map fun r =>
    let diff := ssub w r (to_ssize w p)
    ptr_add w p diff

/-- Source `mp_align_down`: `(d == 0 ? x : (x / d) * d)` on `uintptr_t`. -/
def mp_align_down (w : Nat) (x d : Nat) : Option Nat :=
  if d = 0 then some x
  else (udiv x d).map fun q => umul w q d

/-- Source `mp_align_down_ptr`: `diff = mp_align_down((uintptr_t)p, d) - (ssize_t)p; return p + diff`.
The subtraction is unsigned (the `ssize_t` operand is converted to `uintptr_t`),
its result is converted to `ssize_t`. -/
def mp_align_down_ptr (w : Nat) (p d : Nat) : Option Nat :=
  (mp_align_down w p d).map fun r =>
    let diff := to_ssize w (usub w r (to_uintptr w (to_ssize w p)))
    ptr_add w p diff

/-- Source `mp_max`: `(x >= y ? x : y)`. -/
def mp_max (x y : Int) : Int := if x ≥ y then x else y

/-- Source `mp_min`: `(x <= y ? x : y)`. -/
def mp_min (x y : Int) : Int := if x ≤ y then x else y

/-- Source `mp_guard`: `(uintptr_t)p ^ mp_guard_cookie` unless `__CHERI__` is defined,
where it is `p`. -/
def mp_guard (cheri : Bool) (mp_guard_cookie : Nat) (p : Nat) : Nat :=
  if cheri = false then p ^^^ mp_guard_cookie else p

/-- Source `mp_unguard`: `(uintptr_t)p ^ mp_guard_cookie` unless `__CHERI__` is defined,
where it is `p`. -/
def mp_unguard (cheri : Bool) (mp_guard_cookie : Nat) (p : Nat) : Nat :=
  if cheri = false then p ^^^ mp_guard_cookie else p

/-- How a call ends: it returns a value to its caller, or the process is aborted
by the fatal reporter, which was given an error code and a format string. -/
inductive Outcome (α : Type) where
  | ret (v : α) : Outcome α
  | fatal (err : Int) (fmt : String) : Outcome α
deriving DecidableEq

/-- Sequencing of statements: what follows a call is only run when the call
returns. -/
def Outcome.bind {α β : Type} (o : Outcome α) (f : α → Outcome β) : Outcome β :=
  match o with
  | Outcome.ret v => f v
  | Outcome.fatal err fmt => Outcome.fatal err fmt

/-- Modelled from the spec: the body of `mp_fatal_message` is not part of `util.h`,
which only declares it `mp_decl_noreturn` ("prints message and aborts"); the spec
calls it an explicit fatal report that always terminates.  A call ends the run and
records the error code and the format string. -/
def mp_fatal_message (err : Int) (fmt : String) : Outcome Unit :=
  Outcome.fatal err fmt

/-- Source `mp_zalloc`: `return calloc(1, size)`.  The allocator `calloc` is a
parameter; `none` is the null pointer. -/
def mp_zalloc (calloc : Nat → Nat → Option Nat) (size : Nat) : Outcome (Option Nat) :=
  Outcome.ret (calloc 1 size)

/-- Source `mp_malloc`: `return malloc(size)`.  The allocator `malloc` is a
parameter; `none` is the null pointer. -/
def mp_malloc (malloc : Nat → Option Nat) (size : Nat) : Outcome (Option Nat) :=
  Outcome.ret (malloc size)

/-- Source `mp_malloc_safe`: `p = mp_malloc(size); if (p == NULL) mp_fatal_message(ENOMEM,
"out of memory\n"); return p`.  The `errno` constant `ENOMEM` is a parameter. -/
def mp_malloc_safe (ENOMEM : Int) (malloc : Nat → Option Nat) (size : Nat) :
    Outcome (Option Nat) :=
  (mp_malloc malloc size).bind fun p =>
    (if p = none then mp_fatal_message ENOMEM "out of memory\n"
      else Outcome.ret ()).bind fun _ =>
    Outcome.ret p

/-- Source `mp_zalloc_safe`: `p = mp_zalloc(size); if (p == NULL) mp_fatal_message(ENOMEM,
"out of memory\n"); return p`.  The `errno` constant `ENOMEM` is a parameter. -/
def mp_zalloc_safe (ENOMEM : Int) (calloc : Nat → Nat → Option Nat) (size : Nat) :
    Outcome (Option Nat) :=
  (mp_zalloc calloc size).bind fun p =>
    (if p = none then mp_fatal_message ENOMEM "out of memory\n"
      else Outcome.ret ()).bind fun _ =>
    Outcome.ret p

/-! ## Arithmetic helper lemmas -/

theorem two_pow_split {w : Nat} (hw : 0 < w) : (2 : Int) ^ w = 2 * 2 ^ (w - 1) := by
  obtain ⟨k, rfl⟩ : ∃ k, w = k + 1 := ⟨w - 1, by omega⟩
  simp [pow_succ, mul_comm]

theorem two_pow_pos_int (w : Nat) : (0 : Int) < 2 ^ w := by positivity

/-- Reduction to `ssize_t` leaves a representable value unchanged. -/
theorem wrap_ssize_of_in_ssize {w : Nat} (hw : 0 < w) {v : Int} (h : in_ssize w v) :
    wrap_ssize w v = v := by
  have h2 := two_pow_split hw
  have hp := two_pow_pos_int (w - 1)
  obtain ⟨hlo, hhi⟩ := h
  unfold SSIZE_MIN at hlo
  unfold SSIZE_MAX at hhi
  unfold wrap_ssize
  by_cases hv : 0 ≤ v
  · have e : v % 2 ^ w = v := Int.emod_eq_of_lt hv (by omega)
    rw [e, if_pos (by omega)]
  · have e : v % 2 ^ w = v + 2 ^ w := by
      rw [← Int.add_emod_self]
      exact Int.emod_eq_of_lt (by omega) (by omega)
    rw [e, if_neg (by omega)]
    omega

/-- Reduction to `ssize_t` only depends on the residue modulo `2 ^ w`. -/
theorem wrap_ssize_congr {w : Nat} {a b : Int} (h : a % 2 ^ w = b % 2 ^ w) :
    wrap_ssize w a = wrap_ssize w b := by
  unfold wrap_ssize
  rw [h]

/-- Reduction to `ssize_t` keeps the residue modulo `2 ^ w`. -/
theorem wrap_ssize_emod (w : Nat) (v : Int) : wrap_ssize w v % 2 ^ w = v % 2 ^ w := by
  unfold wrap_ssize
  split
  · exact Int.emod_emod _ _
  · rw [Int.sub_emod, Int.emod_emod, Int.emod_self, Int.sub_zero, Int.emod_emod]

/-- The result of reducing to `ssize_t` is representable. -/
theorem wrap_ssize_in_ssize {w : Nat} (hw : 0 < w) (v : Int) : in_ssize w (wrap_ssize w v) := by
  have h2 := two_pow_split hw
  have hp := two_pow_pos_int w
  have h0 := Int.emod_nonneg v (ne_of_gt hp)
  have h1 := Int.emod_lt_of_pos v hp
  unfold in_ssize SSIZE_MIN SSIZE_MAX wrap_ssize
  split <;> omega

/-- Converting to `uintptr_t` leaves a value below `2 ^ w` unchanged. -/
theorem to_uintptr_of_lt {w : Nat} {a : Nat} (h : a < 2 ^ w) : to_uintptr w (a : Int) = a := by
  unfold to_uintptr
  have : (a : Int) < 2 ^ w := by exact_mod_cast h
  rw [Int.emod_eq_of_lt (by omega) this]
  simp

/-- Converting to `uintptr_t` only depends on the residue modulo `2 ^ w`. -/
theorem to_uintptr_congr {w : Nat} {a b : Int} (h : a % 2 ^ w = b % 2 ^ w) :
    to_uintptr w a = to_uintptr w b := by
  unfold to_uintptr
  rw [h]

/-- The integer value of a conversion to `uintptr_t`. -/
theorem to_uintptr_cast (w : Nat) (v : Int) : ((to_uintptr w v : Nat) : Int) = v % 2 ^ w := by
  unfold to_uintptr
  exact Int.toNat_of_nonneg (Int.emod_nonneg v (ne_of_gt (two_pow_pos_int w)))

/-- Truncating division of a non-negative value: the product with the divisor
is the multiple of `d` in `(t - d, t]`. -/
theorem tdiv_mul_bounds_nonneg {t d : Int} (ht : 0 ≤ t) (hd : 0 < d) :
    t - d < Int.tdiv t d * d ∧ Int.tdiv t d * d ≤ t ∧ 0 ≤ Int.tdiv t d := by
  have e := Int.tdiv_add_tmod' t d
  have h0 := Int.tmod_nonneg d ht
  have h1 := Int.tmod_lt_of_pos t hd
  have hq := Int.tdiv_nonneg ht (le_of_lt hd)
  refine ⟨by omega, by omega, hq⟩

/-- Truncating division of a negative value rounds toward zero: the product with
the divisor is the multiple of `d` in `[t, t + d)`. -/
theorem tdiv_mul_bounds_neg {t d : Int} (ht : t < 0) (hd : 0 < d) :
    t ≤ Int.tdiv t d * d ∧ Int.tdiv t d * d < t + d ∧ Int.tdiv t d ≤ 0 := by
  have hn : 0 ≤ -t := by omega
  obtain ⟨a, b, c⟩ := tdiv_mul_bounds_nonneg hn hd
  rw [Int.neg_tdiv] at a b c
  rw [Int.neg_mul] at a b
  refine ⟨by omega, by omega, by omega⟩

/-! ## `mp_align_up` -/

/-- On the whole signed domain with `d > 0` and `x + d - 1` representable, every
operation of `mp_align_up` is exact: the result is the truncated quotient of
`x + d - 1` by `d`, times `d`. -/
theorem mp_align_up_eq {w : Nat} {x d : Int} (hw : 0 < w) (hx : SSIZE_MIN w ≤ x)
    (hd : 0 < d) (hov : x + d - 1 ≤ SSIZE_MAX w) :
    mp_align_up w x d = some (Int.tdiv (x + d - 1) d * d) := by
  have ht : in_ssize w (x + d - 1) := ⟨by omega, hov⟩
  have e1 : ssub w (sadd w x d) 1 = x + d - 1 := by
    unfold ssub sadd
    rw [wrap_ssize_congr (b := x + d - 1)
      (by rw [Int.sub_emod, wrap_ssize_emod, ← Int.sub_emod])]
    exact wrap_ssize_of_in_ssize hw ht
  have hq : in_ssize w (Int.tdiv (x + d - 1) d) ∧ in_ssize w (Int.tdiv (x + d - 1) d * d) := by
    obtain ⟨hlo, hhi⟩ := ht
    unfold in_ssize
    by_cases h0 : 0 ≤ x + d - 1
    · obtain ⟨_, b, c⟩ := tdiv_mul_bounds_nonneg h0 hd
      have : Int.tdiv (x + d - 1) d ≤ Int.tdiv (x + d - 1) d * d := by nlinarith
      have hm : SSIZE_MIN w ≤ 0 := by
        have := two_pow_pos_int (w - 1)
        unfold SSIZE_MIN; omega
      refine ⟨⟨by omega, by omega⟩, ⟨by nlinarith, by omega⟩⟩
    · obtain ⟨a, _, c⟩ := tdiv_mul_bounds_neg (not_le.mp h0) hd
      have : Int.tdiv (x + d - 1) d * d ≤ Int.tdiv (x + d - 1) d := by nlinarith
      have hm : 0 ≤ SSIZE_MAX w := by
        have := two_pow_pos_int (w - 1)
        unfold SSIZE_MAX; omega
      refine ⟨⟨by omega, by omega⟩, ⟨by omega, by nlinarith⟩⟩
  have hnc : ∀ t : Int, ¬ (t = SSIZE_MIN w ∧ d = -1) := fun _ h => by
    have := h.2
    omega
  unfold mp_align_up sdiv smul
  rw [if_neg (ne_of_gt hd), if_neg (ne_of_gt hd), if_neg (hnc _), e1, Option.map_some',
    wrap_ssize_of_in_ssize hw hq.1, wrap_ssize_of_in_ssize hw hq.2]

/-- Two multiples of `d > 0`, one strictly below the other, are at least `d` apart. -/
theorem multiple_gap {d a b : Int} (hd : 0 < d) (ha : a % d = 0) (hb : b % d = 0)
    (hlt : a < b) : a + d ≤ b := by
  obtain ⟨k, rfl⟩ := Int.dvd_of_emod_eq_zero ha
  obtain ⟨l, rfl⟩ := Int.dvd_of_emod_eq_zero hb
  have hkl : k < l := lt_of_mul_lt_mul_left hlt (le_of_lt hd)
  have : d * (k + 1) ≤ d * l := Int.mul_le_mul_of_nonneg_left (by omega) (le_of_lt hd)
  linarith

/-- The value computed by `mp_align_up` for `x > -d`: the smallest multiple of `d`
that is at least `x`. -/
theorem align_up_value_spec {x d : Int} (hx : -d < x) (hd : 0 < d) :
    (Int.tdiv (x + d - 1) d * d) % d = 0 ∧ x ≤ Int.tdiv (x + d - 1) d * d ∧
    Int.tdiv (x + d - 1) d * d - x < d ∧
    ∀ m : Int, m % d = 0 → x ≤ m → Int.tdiv (x + d - 1) d * d ≤ m := by
  obtain ⟨a, b, _⟩ := tdiv_mul_bounds_nonneg (t := x + d - 1) (by omega) hd
  have hm : (Int.tdiv (x + d - 1) d * d) % d = 0 := Int.mul_emod_left _ _
  refine ⟨hm, by omega, by omega, ?_⟩
  intro m hmd hxm
  by_contra hc
  have := multiple_gap hd hmd hm (not_le.mp hc)
  omega

/-- C3: for `x >= 0` and `d > 0` with `x + d - 1` representable as `ssize_t`,
`mp_align_up x d` returns the smallest multiple of `d` that is `>= x`: the result
`r` has `r mod d = 0`, `r >= x`, `r - x < d`, and `r <= m` for every multiple `m`
of `d` with `m >= x`.  The divisor is arbitrary, not only a power of two.  When
in addition the sum `x + d` is representable, no intermediate value leaves the
`ssize_t` range. -/
theorem mp_align_up_smallest_multiple (w : Nat) (x d : Int) (hw : 0 < w) (hx : 0 ≤ x)
    (hd : 0 < d) (hov : x + d - 1 ≤ SSIZE_MAX w) :
    ∃ r : Int, mp_align_up w x d = some r ∧ r % d = 0 ∧ x ≤ r ∧ r - x < d ∧
      (∀ m : Int, m % d = 0 → x ≤ m → r ≤ m) ∧
      (x + d ≤ SSIZE_MAX w → mp_align_up_no_overflow w x d) := by
  have hmin : SSIZE_MIN w ≤ 0 := by
    have := two_pow_pos_int (w - 1)
    unfold SSIZE_MIN; omega
  obtain ⟨h1, h2, h3, h4⟩ := align_up_value_spec (x := x) (by omega) hd
  refine ⟨_, mp_align_up_eq hw (by omega) hd hov, h1, h2, h3, h4, ?_⟩
  intro hs
  obtain ⟨_, b, c⟩ := tdiv_mul_bounds_nonneg (t := x + d - 1) (by omega) hd
  have : Int.tdiv (x + d - 1) d ≤ Int.tdiv (x + d - 1) d * d := by nlinarith
  unfold mp_align_up_no_overflow in_ssize
  refine Or.inr ⟨⟨by omega, hs⟩, ⟨by omega, hov⟩, ⟨by omega, by omega⟩, ⟨by nlinarith, by omega⟩⟩

/-- Witness for C3 at width 64: `align_up(13, 8) == 16` and `align_up(16, 8) == 16`. -/
theorem mp_align_up_smallest_multiple_witness :
    mp_align_up 64 13 8 = some 16 ∧ mp_align_up 64 16 8 = some 16 ∧
    ∃ r : Int, mp_align_up 64 13 8 = some r ∧ r % 8 = 0 ∧ 13 ≤ r ∧ r - 13 < 8 ∧
      (∀ m : Int, m % 8 = 0 → 13 ≤ m → r ≤ m) ∧
      ((13 : Int) + 8 ≤ SSIZE_MAX 64 → mp_align_up_no_overflow 64 13 8) :=
  ⟨by decide, by decide,
    mp_align_up_smallest_multiple 64 13 8 (by decide) (by decide) (by decide) (by decide)⟩

/-- C4, counterexample: at width 64, `x = -13` and `d = 8` are valid arguments, no
intermediate value overflows, and `mp_align_up(-13, 8)` is `0`: the division
truncates toward zero.  `0 - (-13) = 13` is not below `8`, and `-8` is a smaller
multiple of `8` that is `>= -13`. -/
theorem mp_align_up_negative_counterexample :
    in_ssize 64 (-13) ∧ in_ssize 64 8 ∧ mp_align_up_no_overflow 64 (-13) 8 ∧
    mp_align_up 64 (-13) 8 = some 0 ∧ ¬ ((0 : Int) - (-13) < 8) ∧
    ((-8 : Int) % 8 = 0 ∧ (-13 : Int) ≤ -8 ∧ (-8 : Int) < 0) := by
  decide

/-- C4, amended: for every `ssize_t` value `x` (negative ones included) and every
`d > 0` with `x + d - 1` representable, `mp_align_up x d` returns a multiple `r`
of `d` with `r >= x` and `r - x < 2 * d - 1`.  For `x > -d` (every `x >= 0` in
particular) `r` is the smallest such multiple, `r - x < d`.  In general
`r - x < d` holds exactly when `x > -d` or `x - 1` is a multiple of `d`: for
`x <= -d` the division truncates toward zero instead of rounding down. -/
theorem mp_align_up_signed (w : Nat) (x d : Int) (hw : 0 < w) (hx : in_ssize w x)
    (hd : 0 < d) (hov : x + d - 1 ≤ SSIZE_MAX w) :
    ∃ r : Int, mp_align_up w x d = some r ∧ r % d = 0 ∧ x ≤ r ∧ r - x < 2 * d - 1 ∧
      (-d < x → r - x < d ∧ ∀ m : Int, m % d = 0 → x ≤ m → r ≤ m) ∧
      (r - x < d ↔ (-d < x ∨ (x - 1) % d = 0)) := by
  refine ⟨_, mp_align_up_eq hw hx.1 hd hov, Int.mul_emod_left _ _, ?_⟩
  by_cases hxd : -d < x
  · obtain ⟨_, h2, h3, h4⟩ := align_up_value_spec hxd hd
    exact ⟨h2, by omega, fun _ => ⟨h3, h4⟩, ⟨fun _ => Or.inl hxd, fun _ => h3⟩⟩
  · obtain ⟨a, b, _⟩ := tdiv_mul_bounds_neg (t := x + d - 1) (by omega) hd
    refine ⟨by omega, by omega, fun h => absurd h hxd, ⟨fun hlt => Or.inr ?_, fun h => ?_⟩⟩
    · have e : Int.tdiv (x + d - 1) d * d = x - 1 + d := by omega
      have hdvd : d ∣ x - 1 + d := Dvd.intro_left _ e
      have : d ∣ x - 1 := (Int.dvd_add_left (dvd_refl d)).mp hdvd
      exact Int.emod_eq_zero_of_dvd this
    · rcases h with h | h
      · exact absurd h hxd
      · have hdvd : d ∣ x + d - 1 := by
          have h1 : d ∣ x - 1 := Int.dvd_of_emod_eq_zero h
          have h2 : d ∣ x - 1 + d := Dvd.dvd.add h1 (dvd_refl d)
          have e : x + d - 1 = x - 1 + d := by ring
          rw [e]; exact h2
        rw [Int.tdiv_mul_cancel hdvd]
        omega

/-- Witness for the amended C4 at width 64, `x = -13`, `d = 8`. -/
theorem mp_align_up_signed_witness :
    (0 < 64 ∧ in_ssize 64 (-13) ∧ (0 : Int) < 8 ∧ (-13 : Int) + 8 - 1 ≤ SSIZE_MAX 64) ∧
    ∃ r : Int, mp_align_up 64 (-13) 8 = some r ∧ r % 8 = 0 ∧ -13 ≤ r ∧ r - (-13) < 2 * 8 - 1 ∧
      (-8 < (-13 : Int) → r - (-13) < 8 ∧ ∀ m : Int, m % 8 = 0 → -13 ≤ m → r ≤ m) ∧
      (r - (-13) < 8 ↔ (-8 < (-13 : Int) ∨ ((-13 : Int) - 1) % 8 = 0)) :=
  ⟨by decide, mp_align_up_signed 64 (-13) 8 (by decide) (by decide) (by decide) (by decide)⟩

/-! ## `mp_align_down` -/

/-- For `d > 0` the product in `mp_align_down` does not wrap: the result is
`(x / d) * d`. -/
theorem mp_align_down_eq {w : Nat} {x d : Nat} (hx : x < 2 ^ w) (hd : 0 < d) :
    mp_align_down w x d = some (x / d * d) := by
  unfold mp_align_down udiv umul
  rw [if_neg (by omega), if_neg (by omega), Option.map_some',
    Nat.mod_eq_of_lt (lt_of_le_of_lt (Nat.div_mul_le_self x d) hx)]

/-- C5: for every `uintptr_t` value `x` and every `d > 0`, `mp_align_down x d`
returns the largest multiple of `d` that is `<= x`: the result `r` has
`r mod d = 0`, `r <= x`, `x - r < d`, and `m <= r` for every multiple `m` of `d`
with `m <= x`.  The only intermediate product, `(x / d) * d`, stays below `2 ^ w`
and is returned unreduced. -/
theorem mp_align_down_largest_multiple (w : Nat) (x d : Nat) (hx : x < 2 ^ w) (hd : 0 < d) :
    ∃ r : Nat, mp_align_down w x d = some r ∧ r % d = 0 ∧ r ≤ x ∧ x - r < d ∧
      (∀ m : Nat, m % d = 0 → m ≤ x → m ≤ r) ∧
      x / d * d < 2 ^ w ∧ umul w (x / d) d = x / d * d := by
  have hle : x / d * d ≤ x := Nat.div_mul_le_self x d
  have hlt : x / d * d < 2 ^ w := lt_of_le_of_lt hle hx
  refine ⟨_, mp_align_down_eq hx hd, Nat.mul_mod_left _ _, hle, ?_, ?_, hlt,
    Nat.mod_eq_of_lt hlt⟩
  · have e := Nat.div_add_mod x d
    have hm := Nat.mod_lt x hd
    have ec : d * (x / d) = x / d * d := Nat.mul_comm _ _
    omega
  · intro m hmd hmx
    obtain ⟨k, rfl⟩ := Nat.dvd_of_mod_eq_zero hmd
    have hk : k ≤ x / d := (Nat.le_div_iff_mul_le hd).mpr (by rw [Nat.mul_comm]; exact hmx)
    calc d * k = k * d := Nat.mul_comm _ _
      _ ≤ x / d * d := Nat.mul_le_mul_right d hk

/-- Witness for C5 at width 64: `align_down(13, 8) == 8`. -/
theorem mp_align_down_largest_multiple_witness :
    mp_align_down 64 13 8 = some 8 ∧ (13 < 2 ^ 64 ∧ 0 < 8) ∧
    ∃ r : Nat, mp_align_down 64 13 8 = some r ∧ r % 8 = 0 ∧ r ≤ 13 ∧ 13 - r < 8 ∧
      (∀ m : Nat, m % 8 = 0 → m ≤ 13 → m ≤ r) ∧
      13 / 8 * 8 < 2 ^ 64 ∧ umul 64 (13 / 8) 8 = 13 / 8 * 8 :=
  ⟨by decide, by decide, mp_align_down_largest_multiple 64 13 8 (by decide) (by decide)⟩

/-! ## The pointer variants -/

/-- Casting an address to `ssize_t` and back to `uintptr_t` gives the address. -/
theorem to_uintptr_to_ssize {w : Nat} {p : Nat} (hp : p < 2 ^ w) :
    to_uintptr w (to_ssize w p) = p := by
  unfold to_ssize
  rw [to_uintptr_congr (wrap_ssize_emod w p)]
  exact to_uintptr_of_lt hp

/-- The offset computed by `mp_align_down_ptr` moves the address `p` to the
aligned value `r`, for every pair of `uintptr_t` values: the unsigned
subtraction, the narrowing to `ssize_t` and the pointer addition are all
congruent modulo `2 ^ w`. -/
theorem align_down_ptr_delta {w : Nat} {p r : Nat} (hp : p < 2 ^ w) (hr : r < 2 ^ w) :
    ptr_add w p (to_ssize w (usub w r (to_uintptr w (to_ssize w p)))) = r := by
  rw [to_uintptr_to_ssize hp]
  unfold ptr_add to_ssize usub
  have h : ((p : Int) + wrap_ssize w ((to_uintptr w ((r : Int) - (p : Int)) : Nat) : Int)) % 2 ^ w
      = (r : Int) % 2 ^ w := by
    rw [Int.add_emod, wrap_ssize_emod, to_uintptr_cast, Int.emod_emod, ← Int.add_emod]
    congr 1
    omega
  rw [to_uintptr_congr h]
  exact to_uintptr_of_lt hr

/-- For every address, `mp_align_down_ptr` returns the address computed by
`mp_align_down`. -/
theorem mp_align_down_ptr_eq {w : Nat} {p : Nat} (d : Nat) (hp : p < 2 ^ w) :
    mp_align_down_ptr w p d = mp_align_down w p d := by
  unfold mp_align_down_ptr
  by_cases hd : d = 0
  · subst hd
    have e : mp_align_down w p 0 = some p := by unfold mp_align_down; rw [if_pos rfl]
    rw [e, Option.map_some']
    exact congrArg some (align_down_ptr_delta hp hp)
  · have hlt : p / d * d < 2 ^ w := lt_of_le_of_lt (Nat.div_mul_le_self p d) hp
    rw [mp_align_down_eq hp (Nat.pos_of_ne_zero hd), Option.map_some']
    exact congrArg some (align_down_ptr_delta hp hlt)

/-- No call of the four alignment functions divides by zero: the unsigned ones
return for every divisor, the signed ones for every divisor other than `-1`, the
only divisor for which the quotient can overflow. -/
theorem mp_align_isSome (w : Nat) (x d : Int) (y e p : Nat) (hd1 : d ≠ -1) :
    (mp_align_up w x d).isSome = true ∧ (mp_align_down w y e).isSome = true ∧
    (mp_align_up_ptr w p d).isSome = true ∧ (mp_align_down_ptr w p e).isSome = true := by
  have hnc : ∀ t : Int, ¬ (t = SSIZE_MIN w ∧ d = -1) := fun _ h => hd1 h.2
  have hu : ∀ x : Int, (mp_align_up w x d).isSome = true := by
    intro x
    unfold mp_align_up sdiv
    by_cases hd : d = 0
    · rw [if_pos hd]; rfl
    · rw [if_neg hd, if_neg hd, if_neg (hnc _)]; rfl
  have hdn : ∀ y : Nat, (mp_align_down w y e).isSome = true := by
    intro y
    unfold mp_align_down udiv
    by_cases he : e = 0
    · rw [if_pos he]; rfl
    · rw [if_neg he, if_neg he]; rfl
  refine ⟨hu x, hdn y, ?_, ?_⟩
  · unfold mp_align_up_ptr
    rw [Option.isSome_map']
    exact hu _
  · unfold mp_align_down_ptr
    rw [Option.isSome_map']
    exact hdn _

/-- The one input on which the signed division faults without a zero divisor:
`x + d - 1 = SSIZE_MIN` with `d = -1`. -/
theorem mp_align_up_quotient_overflow :
    mp_align_up 64 (SSIZE_MIN 64 + 2) (-1) = none ∧
    ¬ mp_align_up_no_overflow 64 (SSIZE_MIN 64 + 2) (-1) := by
  decide

/-- C6: a divisor of `0` is a no-op. `mp_align_up x 0` and `mp_align_down y 0`
return their argument, and `mp_align_up_ptr p 0` and `mp_align_down_ptr p 0`
return the pointer `p`.  Division by zero yields `none` in the model, so a result
`some _` shows that no division by zero is evaluated.  The same holds for the
other divisors: the unsigned functions return `some _` for every divisor `e`, the
signed ones for every divisor `d` other than `-1`; `-1` is not zero, and is the
one divisor for which the signed division can fault (`SSIZE_MIN / -1`). -/
theorem mp_align_zero_divisor (w : Nat) (x : Int) (y p : Nat) (hp : p < 2 ^ w) :
    mp_align_up w x 0 = some x ∧ mp_align_down w y 0 = some y ∧
    mp_align_up_ptr w p 0 = some p ∧ mp_align_down_ptr w p 0 = some p ∧
    ∀ (d : Int) (e : Nat), d ≠ -1 → (mp_align_up w x d).isSome = true ∧
      (mp_align_down w y e).isSome = true ∧ (mp_align_up_ptr w p d).isSome = true ∧
      (mp_align_down_ptr w p e).isSome = true := by
  have hup : ∀ x : Int, mp_align_up w x 0 = some x := by
    intro x; unfold mp_align_up; rw [if_pos rfl]
  have hdown : ∀ y : Nat, mp_align_down w y 0 = some y := by
    intro y; unfold mp_align_down; rw [if_pos rfl]
  refine ⟨hup x, hdown y, ?_, ?_, fun d e hd1 => mp_align_isSome w x d y e p hd1⟩
  · unfold mp_align_up_ptr
    rw [hup, Option.map_some']
    have h0 : ssub w (to_ssize w p) (to_ssize w p) = 0 := by
      unfold ssub wrap_ssize
      rw [Int.sub_self, Int.zero_emod, if_pos (two_pow_pos_int (w - 1))]
    simp only [h0]
    unfold ptr_add
    rw [Int.add_zero]
    exact congrArg some (to_uintptr_of_lt hp)
  · rw [mp_align_down_ptr_eq 0 hp]
    exact hdown p

/-- Witness for C6 at width 64 with the address `4097`. -/
theorem mp_align_zero_divisor_witness :
    4097 < 2 ^ 64 ∧ (mp_align_up 64 (-5) 0 = some (-5) ∧ mp_align_down 64 13 0 = some 13 ∧
    mp_align_up_ptr 64 4097 0 = some 4097 ∧ mp_align_down_ptr 64 4097 0 = some 4097 ∧
    ∀ (d : Int) (e : Nat), d ≠ -1 → (mp_align_up 64 (-5) d).isSome = true ∧
      (mp_align_down 64 13 e).isSome = true ∧ (mp_align_up_ptr 64 4097 d).isSome = true ∧
      (mp_align_down_ptr 64 4097 e).isSome = true) :=
  ⟨by decide, mp_align_zero_divisor 64 (-5) 13 4097 (by decide)⟩

/-- C7: `mp_align_up_ptr` evaluated at addresses in the upper half of the address
space, which the cast `(ssize_t)p` makes negative, so that the division of
`mp_align_up` truncates toward zero.  No intermediate value overflows at any of
these inputs.
* Width 64, address `2 ^ 63 + 8`, `d = 8`: the address is a multiple of `8`, yet
  the result is `2 ^ 63 + 16`, a distance of `8`, not below `d`;
  `mp_align_down_ptr` returns the address itself.
* Width 64, address `2 ^ 63 + 3`, `d = 8`: the result is `2 ^ 63 + 16`, a distance
  of `13`.
* Width 64, address `2 ^ 63 + 5`, `d = 3`: the result is `2 ^ 63 + 8`, which is not
  a multiple of `3`.
* Width 32, address `0xBFFF0000`, `d = 4096`: the address is a multiple of `4096`,
  yet the result is `0xBFFF1000`. -/
theorem mp_align_up_ptr_high_half_misaligns :
    (2 ^ 63 + 8 < 2 ^ 64 ∧ in_ssize 64 8 ∧ (2 ^ 63 + 8) % 8 = 0 ∧
      mp_align_up_no_overflow 64 (to_ssize 64 (2 ^ 63 + 8)) 8 ∧
      mp_align_up_ptr 64 (2 ^ 63 + 8) 8 = some (2 ^ 63 + 16) ∧
      ¬ (((2 ^ 63 + 16 : Nat) : Int) - ((2 ^ 63 + 8 : Nat) : Int) < 8) ∧
      mp_align_down_ptr 64 (2 ^ 63 + 8) 8 = some (2 ^ 63 + 8)) ∧
    (2 ^ 63 + 3 < 2 ^ 64 ∧ in_ssize 64 8 ∧
      mp_align_up_no_overflow 64 (to_ssize 64 (2 ^ 63 + 3)) 8 ∧
      mp_align_up_ptr 64 (2 ^ 63 + 3) 8 = some (2 ^ 63 + 16) ∧
      ¬ (((2 ^ 63 + 16 : Nat) : Int) - ((2 ^ 63 + 3 : Nat) : Int) < 8)) ∧
    (2 ^ 63 + 5 < 2 ^ 64 ∧ in_ssize 64 3 ∧
      mp_align_up_no_overflow 64 (to_ssize 64 (2 ^ 63 + 5)) 3 ∧
      mp_align_up_ptr 64 (2 ^ 63 + 5) 3 = some (2 ^ 63 + 8) ∧
      ¬ ((2 ^ 63 + 8) % 3 = 0)) ∧
    (0xBFFF0000 < 2 ^ 32 ∧ in_ssize 32 4096 ∧ 0xBFFF0000 % 4096 = 0 ∧
      mp_align_up_no_overflow 32 (to_ssize 32 0xBFFF0000) 4096 ∧
      mp_align_up_ptr 32 0xBFFF0000 4096 = some 0xBFFF1000 ∧
      mp_align_down_ptr 32 0xBFFF0000 4096 = some 0xBFFF0000) := by
  decide

/-- Where `mp_align_up_ptr` is right: for every pointer whose address `a` is a
non-negative `ssize_t` and every `d > 0` with `a + d - 1` representable as
`ssize_t`, the address `r` of `mp_align_up_ptr p d` is the value of
`mp_align_up a d` and satisfies `r mod d = 0`, `r >= a` and `r - a < d`. -/
theorem mp_align_up_ptr_nonneg_ssize (w : Nat) (a : Nat) (d : Int) (hw : 0 < w)
    (hd : 0 < d) (hov : (a : Int) + d - 1 ≤ SSIZE_MAX w) :
    ∃ r : Nat, mp_align_up_ptr w a d = some r ∧ mp_align_up w (a : Int) d = some (r : Int) ∧
      (r : Int) % d = 0 ∧ a ≤ r ∧ (r : Int) - (a : Int) < d := by
  have hpow := two_pow_pos_int (w - 1)
  have h2 := two_pow_split hw
  have hmax : SSIZE_MAX w = 2 ^ (w - 1) - 1 := rfl
  have hmin : SSIZE_MIN w = -(2 ^ (w - 1)) := rfl
  have ha : in_ssize w (a : Int) := ⟨by omega, by omega⟩
  have es : to_ssize w a = (a : Int) := wrap_ssize_of_in_ssize hw ha
  obtain ⟨h1, h2', h3, _⟩ := align_up_value_spec (x := (a : Int)) (by omega) hd
  have hR := mp_align_up_eq hw ha.1 hd hov
  generalize Int.tdiv ((a : Int) + d - 1) d * d = R at h1 h2' h3 hR
  have hdiff : ssub w R (a : Int) = R - (a : Int) :=
    wrap_ssize_of_in_ssize hw ⟨by omega, by omega⟩
  have hcast : ((R.toNat : Nat) : Int) = R := Int.toNat_of_nonneg (by omega)
  refine ⟨R.toNat, ?_, by rw [hcast]; exact hR, by rw [hcast]; exact h1, by omega, by omega⟩
  unfold mp_align_up_ptr
  rw [es, hR, Option.map_some']
  simp only [hdiff]
  unfold ptr_add to_uintptr
  rw [show (a : Int) + (R - (a : Int)) = R by ring,
    Int.emod_eq_of_lt (by omega) (by omega)]

/-- Instance of `mp_align_up_ptr_nonneg_ssize` at width 64: the address `4097`
aligned to `4096`. -/
theorem mp_align_up_ptr_nonneg_ssize_witness :
    mp_align_up_ptr 64 4097 4096 = some 8192 ∧
    (0 < 64 ∧ (0 : Int) < 4096 ∧ ((4097 : Nat) : Int) + 4096 - 1 ≤ SSIZE_MAX 64) ∧
    ∃ r : Nat, mp_align_up_ptr 64 4097 4096 = some r ∧
      mp_align_up 64 ((4097 : Nat) : Int) 4096 = some (r : Int) ∧
      (r : Int) % 4096 = 0 ∧ 4097 ≤ r ∧ (r : Int) - ((4097 : Nat) : Int) < 4096 :=
  ⟨by decide, by decide,
    mp_align_up_ptr_nonneg_ssize 64 4097 4096 (by decide) (by decide) (by decide)⟩

/-- C8: for every address `a` of the full `uintptr_t` range and every `d > 0`, the
address `r` of `mp_align_down_ptr p d` equals `mp_align_down a d`, so
`r mod d = 0`, `r <= a` and `a - r < d`.  The offset is the unsigned difference of
the aligned value and the cast address, narrowed to `ssize_t`; all steps are
taken modulo `2 ^ w`. -/
theorem mp_align_down_ptr_spec (w : Nat) (a d : Nat) (ha : a < 2 ^ w) (hd : 0 < d) :
    mp_align_down_ptr w a d = mp_align_down w a d ∧
    ∃ r : Nat, mp_align_down_ptr w a d = some r ∧ r % d = 0 ∧ r ≤ a ∧ a - r < d := by
  have he := mp_align_down_ptr_eq d ha
  refine ⟨he, a / d * d, by rw [he]; exact mp_align_down_eq ha hd, Nat.mul_mod_left _ _,
    Nat.div_mul_le_self a d, ?_⟩
  have e := Nat.div_add_mod a d
  have hm := Nat.mod_lt a hd
  have ec : d * (a / d) = a / d * d := Nat.mul_comm _ _
  omega

/-- Witness for C8 at width 64 with an address in the upper half of the address
space, `2 ^ 63 + 13`, and `d = 8`. -/
theorem mp_align_down_ptr_spec_witness :
    mp_align_down_ptr 64 (2 ^ 63 + 13) 8 = some (2 ^ 63 + 8) ∧
    (2 ^ 63 + 13 < 2 ^ 64 ∧ 0 < 8) ∧
    (mp_align_down_ptr 64 (2 ^ 63 + 13) 8 = mp_align_down 64 (2 ^ 63 + 13) 8 ∧
    ∃ r : Nat, mp_align_down_ptr 64 (2 ^ 63 + 13) 8 = some r ∧ r % 8 = 0 ∧
      r ≤ 2 ^ 63 + 13 ∧ 2 ^ 63 + 13 - r < 8) :=
  ⟨by decide, by decide, mp_align_down_ptr_spec 64 (2 ^ 63 + 13) 8 (by decide) (by decide)⟩

/-! ## `mp_max` and `mp_min` -/

/-- C9, counterexample: for equal arguments the result of `mp_min` equals both of
them, so it is not the case that exactly one of the two equalities holds; the same
for `mp_max`. -/
theorem mp_min_max_tie_counterexample :
    (mp_min 5 5 = 5 ∧ mp_min 5 5 = 5) ∧ ¬ Xor' (mp_min 5 5 = 5) (mp_min 5 5 = 5) ∧
    (mp_max 5 5 = 5 ∧ mp_max 5 5 = 5) ∧ ¬ Xor' (mp_max 5 5 = 5) (mp_max 5 5 = 5) := by
  refine ⟨⟨by decide, by decide⟩, ?_, ⟨by decide, by decide⟩, ?_⟩ <;> simp [Xor']

/-- C9, amended: for all signed offsets `x` and `y`, `mp_min x y` equals `x` or `y`,
and exactly one of the two equalities holds if and only if `x` and `y` differ
(for `x = y` both hold); the same for `mp_max`. -/
theorem mp_min_max_selects (x y : Int) :
    (mp_min x y = x ∨ mp_min x y = y) ∧
    (Xor' (mp_min x y = x) (mp_min x y = y) ↔ x ≠ y) ∧
    (mp_max x y = x ∨ mp_max x y = y) ∧
    (Xor' (mp_max x y = x) (mp_max x y = y) ↔ x ≠ y) := by
  unfold mp_min mp_max Xor'
  refine ⟨?_, ?_, ?_, ?_⟩ <;> split <;> omega

/-- C10: for all signed offsets `x` and `y`, `mp_min x y <= mp_max x y`;
`mp_min x y` is below both arguments and equals one of them; `mp_max x y` is above
both arguments and equals one of them; on a tie both return the common value. -/
theorem mp_min_max_order (x y : Int) :
    mp_min x y ≤ mp_max x y ∧
    (mp_min x y ≤ x ∧ mp_min x y ≤ y ∧ (mp_min x y = x ∨ mp_min x y = y)) ∧
    (x ≤ mp_max x y ∧ y ≤ mp_max x y ∧ (mp_max x y = x ∨ mp_max x y = y)) ∧
    (mp_min x x = x ∧ mp_max x x = x) := by
  unfold mp_min mp_max
  refine ⟨?_, ⟨?_, ?_, ?_⟩, ⟨?_, ?_, ?_⟩, ⟨?_, ?_⟩⟩ <;> split_ifs <;> omega

/-! ## The guard cookie -/

/-- The guard transform of a `w`-bit pointer under a `w`-bit cookie is a `w`-bit
value. -/
theorem mp_guard_lt (cheri : Bool) {w c p : Nat} (hc : c < 2 ^ w) (hp : p < 2 ^ w) :
    mp_guard cheri c p < 2 ^ w ∧ mp_unguard cheri c p < 2 ^ w := by
  unfold mp_guard mp_unguard
  cases cheri
  · exact ⟨Nat.xor_lt_two_pow hp hc, Nat.xor_lt_two_pow hp hc⟩
  · exact ⟨hp, hp⟩

/-- C1: without `__CHERI__`, for every pointer value `p` and every cookie `c`,
`mp_unguard (mp_guard p) = p` and `mp_guard (mp_guard p) = p`. -/
theorem mp_guard_self_inverse (c p : Nat) :
    mp_unguard false c (mp_guard false c p) = p ∧
    mp_guard false c (mp_guard false c p) = p := by
  unfold mp_guard mp_unguard
  simp [Nat.xor_assoc]

/-- C2: without `__CHERI__`, for every pointer value `p` and cookie `K`,
`mp_guard p` and `mp_unguard p` are both `p XOR K`, the two are the same function,
`mp_guard 0x1000 = 0x1000 XOR K`, and `mp_unguard` of that is `0x1000`. -/
theorem mp_guard_is_xor (K p : Nat) :
    mp_guard false K p = p ^^^ K ∧ mp_unguard false K p = p ^^^ K ∧
    mp_guard false K = mp_unguard false K ∧
    mp_guard false K 0x1000 = 0x1000 ^^^ K ∧
    mp_unguard false K (mp_guard false K 0x1000) = 0x1000 := by
  refine ⟨rfl, rfl, rfl, rfl, ?_⟩
  unfold mp_guard mp_unguard
  simp [Nat.xor_assoc]

/-- C12: with `__CHERI__` defined, `mp_guard` and `mp_unguard` are the identity for
every pointer `p` and every cookie; the result does not depend on the cookie. -/
theorem mp_guard_cheri_identity (c c' p : Nat) :
    mp_guard true c p = p ∧ mp_unguard true c p = p ∧
    mp_guard true c p = mp_guard true c' p ∧ mp_unguard true c p = mp_unguard true c' p := by
  unfold mp_guard mp_unguard
  simp

/-- C18: without `__CHERI__`, for a fixed cookie the guard transform is injective;
`mp_guard p = p` exactly when the cookie is `0`; and decoding under a cookie `c'`
what was encoded under `c` gives back `p` exactly when `c = c'`. -/
theorem mp_guard_injective (c c' p q : Nat) :
    (mp_guard false c p = mp_guard false c q ↔ p = q) ∧
    (mp_guard false c p = p ↔ c = 0) ∧
    (mp_unguard false c' (mp_guard false c p) = p ↔ c = c') ∧
    ((p ^^^ c) ^^^ c' = p ↔ c = c') := by
  have h3 : (p ^^^ c) ^^^ c' = p ↔ c = c' := by
    rw [Nat.xor_assoc]
    constructor
    · intro h
      have h0 : p ^^^ (c ^^^ c') = p ^^^ 0 := by rw [h, Nat.xor_zero]
      exact Nat.xor_eq_zero.mp (Nat.xor_right_inj.mp h0)
    · intro h
      rw [h, Nat.xor_self, Nat.xor_zero]
  have h2 : p ^^^ c = p ↔ c = 0 := by
    constructor
    · intro h
      have h0 : p ^^^ c = p ^^^ 0 := by rw [h, Nat.xor_zero]
      exact Nat.xor_right_inj.mp h0
    · intro h
      rw [h, Nat.xor_zero]
  unfold mp_guard mp_unguard
  exact ⟨by simp, by simpa using h2, by simpa using h3, h3⟩

/-! ## The allocation wrappers -/

/-- C11: for every size, `mp_malloc_safe` and `mp_zalloc_safe` never return a null
pointer.  When the underlying allocation yields a block they return exactly that
block and the fatal reporter is not called; when it yields null the call ends in
`mp_fatal_message` with the error code `ENOMEM` and the format string
`"out of memory\n"` (the message "out of memory" and a newline), and nothing is
returned. -/
theorem mp_alloc_safe_never_null (ENOMEM : Int) (malloc : Nat → Option Nat)
    (calloc : Nat → Nat → Option Nat) (size : Nat) :
    (mp_malloc_safe ENOMEM malloc size =
      match malloc size with
      | some b => Outcome.ret (some b)
      | none => Outcome.fatal ENOMEM "out of memory\n") ∧
    (mp_zalloc_safe ENOMEM calloc size =
      match calloc 1 size with
      | some b => Outcome.ret (some b)
      | none => Outcome.fatal ENOMEM "out of memory\n") ∧
    mp_malloc_safe ENOMEM malloc size ≠ Outcome.ret none ∧
    mp_zalloc_safe ENOMEM calloc size ≠ Outcome.ret none := by
  unfold mp_malloc_safe mp_zalloc_safe mp_malloc mp_zalloc mp_fatal_message
  refine ⟨?_, ?_, ?_, ?_⟩
  · cases malloc size <;> simp [Outcome.bind]
  · cases calloc 1 size <;> simp [Outcome.bind]
  · cases malloc size <;> simp [Outcome.bind]
  · cases calloc 1 size <;> simp [Outcome.bind]

/-- C13: for every size, `mp_malloc` and `mp_zalloc` return exactly what the
underlying allocator returns, the null pointer included, and never end in the
fatal reporter; `mp_zalloc` asks `calloc` for one element of `size` bytes. -/
theorem mp_alloc_passthrough (malloc : Nat → Option Nat) (calloc : Nat → Nat → Option Nat)
    (size : Nat) :
    mp_malloc malloc size = Outcome.ret (malloc size) ∧
    mp_zalloc calloc size = Outcome.ret (calloc 1 size) ∧
    (∀ (err : Int) (fmt : String), mp_malloc malloc size ≠ Outcome.fatal err fmt) ∧
    (∀ (err : Int) (fmt : String), mp_zalloc calloc size ≠ Outcome.fatal err fmt) := by
  unfold mp_malloc mp_zalloc
  exact ⟨rfl, rfl, fun _ _ h => Outcome.noConfusion h, fun _ _ h => Outcome.noConfusion h⟩

/-! ## Relations between `mp_align_up` and `mp_align_down` -/

/-- The value computed by `mp_align_up` for `x > -d` is `x` exactly when `x` is a
multiple of `d`. -/
theorem align_up_value_fixed {x d : Int} (hx : -d < x) (hd : 0 < d) :
    Int.tdiv (x + d - 1) d * d = x ↔ x % d = 0 := by
  obtain ⟨h1, h2, _, h4⟩ := align_up_value_spec hx hd
  constructor
  · intro h
    rw [h] at h1
    exact h1
  · intro h
    exact le_antisymm (h4 x h (le_refl x)) h2

/-- The value computed by `mp_align_down` is `x` exactly when `x` is a multiple
of `d`. -/
theorem align_down_value_fixed (x : Nat) {d : Nat} (hd : 0 < d) :
    x / d * d = x ↔ x % d = 0 := by
  have e := Nat.div_add_mod x d
  have ec : d * (x / d) = x / d * d := Nat.mul_comm _ _
  have hm := Nat.mod_lt x hd
  omega

/-- Bounds of an address that satisfies the no-overflow condition of
`mp_align_up`. -/
theorem addr_bounds {w : Nat} {a d : Nat} (hw : 0 < w) (hd : 0 < d)
    (hov : (a : Int) + d - 1 ≤ SSIZE_MAX w) :
    in_ssize w (a : Int) ∧ a < 2 ^ w ∧ SSIZE_MAX w < 2 ^ w := by
  have hpow := two_pow_pos_int (w - 1)
  have h2 := two_pow_split hw
  have hmax : SSIZE_MAX w = 2 ^ (w - 1) - 1 := rfl
  have hmin : SSIZE_MIN w = -(2 ^ (w - 1)) := rfl
  have hlt : (a : Int) < 2 ^ w := by omega
  refine ⟨⟨by omega, by omega⟩, by exact_mod_cast hlt, by omega⟩

/-- C15: aligning fixes exactly the multiples of `d` and is idempotent.  For every
`uintptr_t` value `x` and `d > 0`, `mp_align_down x d = x` if and only if
`x mod d = 0`, and aligning the result down again returns it.  When `x + d - 1`
is representable as `ssize_t`, `mp_align_up x d = x` if and only if `x mod d = 0`,
and aligning the result `u` up again returns `u`, provided `u + d - 1` is
representable as well (the second call does not overflow either). -/
theorem mp_align_idempotent (w : Nat) (x d : Nat) (hw : 0 < w) (hx : x < 2 ^ w)
    (hd : 0 < d) :
    (∃ l : Nat, mp_align_down w x d = some l ∧ (l = x ↔ x % d = 0) ∧
      mp_align_down w l d = some l) ∧
    ((x : Int) + d - 1 ≤ SSIZE_MAX w →
      ∃ u : Int, mp_align_up w x d = some u ∧ (u = x ↔ (x : Int) % d = 0) ∧
        (u + d - 1 ≤ SSIZE_MAX w → mp_align_up w u d = some u)) := by
  have hdi : (0 : Int) < d := by exact_mod_cast hd
  constructor
  · have hl : x / d * d < 2 ^ w := lt_of_le_of_lt (Nat.div_mul_le_self x d) hx
    refine ⟨x / d * d, mp_align_down_eq hx hd, align_down_value_fixed x hd, ?_⟩
    rw [mp_align_down_eq hl hd]
    exact congrArg some ((align_down_value_fixed _ hd).mpr (Nat.mul_mod_left _ _))
  · intro hov
    obtain ⟨hin, _, _⟩ := addr_bounds hw hd hov
    obtain ⟨h1, h2, _, _⟩ := align_up_value_spec (x := (x : Int)) (by omega) hdi
    refine ⟨_, mp_align_up_eq hw hin.1 hdi hov, align_up_value_fixed (by omega) hdi, ?_⟩
    generalize Int.tdiv ((x : Int) + d - 1) d * d = u at h1 h2
    intro hov2
    rw [mp_align_up_eq hw (by have := hin.1; omega) hdi hov2]
    exact congrArg some ((align_up_value_fixed (by omega) hdi).mpr h1)

/-- Witness for C15 at width 64: `x = 13`, `d = 8`; both no-overflow conditions of
the `mp_align_up` part hold there. -/
theorem mp_align_idempotent_witness :
    (0 < 64 ∧ 13 < 2 ^ 64 ∧ 0 < 8) ∧
    (∃ l : Nat, mp_align_down 64 13 8 = some l ∧ (l = 13 ↔ 13 % 8 = 0) ∧
      mp_align_down 64 l 8 = some l) ∧
    (((13 : Nat) : Int) + (8 : Nat) - 1 ≤ SSIZE_MAX 64) ∧
    (∃ u : Int, mp_align_up 64 (13 : Nat) (8 : Nat) = some u ∧
      (u = (13 : Nat) ↔ ((13 : Nat) : Int) % (8 : Nat) = 0) ∧
      (u + (8 : Nat) - 1 ≤ SSIZE_MAX 64 → mp_align_up 64 u (8 : Nat) = some u)) ∧
    mp_align_up 64 13 8 = some 16 ∧ (16 : Int) + 8 - 1 ≤ SSIZE_MAX 64 ∧
    mp_align_up 64 16 8 = some 16 :=
  ⟨by decide, (mp_align_idempotent 64 13 8 (by decide) (by decide) (by decide)).1,
    by decide,
    (mp_align_idempotent 64 13 8 (by decide) (by decide) (by decide)).2 (by decide),
    by decide, by decide, by decide⟩

/-- C16: where both are defined without overflow (`d > 0`, `x + d - 1` representable
as `ssize_t`), `mp_align_down x d <= x <= mp_align_up x d`, and the difference of
the two results is `0` when `x` is a multiple of `d` and `d` otherwise. -/
theorem mp_align_bracket (w : Nat) (x d : Nat) (hw : 0 < w) (hd : 0 < d)
    (hov : (x : Int) + d - 1 ≤ SSIZE_MAX w) :
    ∃ (up : Int) (dn : Nat), mp_align_up w x d = some up ∧ mp_align_down w x d = some dn ∧
      (dn : Int) ≤ x ∧ (x : Int) ≤ up ∧
      up - (dn : Int) = if x % d = 0 then 0 else (d : Int) := by
  have hdi : (0 : Int) < d := by exact_mod_cast hd
  obtain ⟨hin, hx, _⟩ := addr_bounds hw hd hov
  obtain ⟨h1, h2, h3, h4⟩ := align_up_value_spec (x := (x : Int)) (by omega) hdi
  have hfix := align_up_value_fixed (x := (x : Int)) (by omega) hdi
  have hle : x / d * d ≤ x := Nat.div_mul_le_self x d
  have hdfix := align_down_value_fixed x hd
  have hmod : (x : Int) % d = 0 ↔ x % d = 0 := by
    rw [← Int.natCast_mod]
    exact_mod_cast Iff.rfl
  refine ⟨_, x / d * d, mp_align_up_eq hw hin.1 hdi hov, mp_align_down_eq hx hd,
    by exact_mod_cast hle, h2, ?_⟩
  generalize Int.tdiv ((x : Int) + d - 1) d * d = up at h1 h2 h3 h4 hfix
  by_cases hm : x % d = 0
  · rw [if_pos hm, hfix.mpr (hmod.mpr hm), hdfix.mpr hm]
    omega
  · rw [if_neg hm]
    have hdn : x / d * d ≠ x := fun h => hm (hdfix.mp h)
    have hupne : up ≠ x := fun h => hm (hmod.mp (hfix.mp h))
    have e := Nat.div_add_mod x d
    have ec : d * (x / d) = x / d * d := Nat.mul_comm _ _
    have hml := Nat.mod_lt x hd
    have hdm : ((x / d * d : Nat) : Int) % d = 0 := by
      push_cast
      exact Int.mul_emod_left _ _
    have hnext : (((x / d * d : Nat) : Int) + d) % d = 0 := by
      rw [Int.add_emod_self]; exact hdm
    have hub := h4 _ hnext (by omega)
    have hlb := multiple_gap hdi hdm h1 (by omega)
    omega

/-- Witness for C16 at width 64: `x = 13`, `d = 8`, where the results are `16` and
`8`. -/
theorem mp_align_bracket_witness :
    (0 < 64 ∧ 0 < 8 ∧ ((13 : Nat) : Int) + (8 : Nat) - 1 ≤ SSIZE_MAX 64) ∧
    mp_align_up 64 13 8 = some 16 ∧ mp_align_down 64 13 8 = some 8 ∧
    ∃ (up : Int) (dn : Nat), mp_align_up 64 (13 : Nat) (8 : Nat) = some up ∧
      mp_align_down 64 13 8 = some dn ∧ (dn : Int) ≤ (13 : Nat) ∧ ((13 : Nat) : Int) ≤ up ∧
      up - (dn : Int) = if 13 % 8 = 0 then 0 else ((8 : Nat) : Int) :=
  ⟨by decide, by decide, by decide,
    mp_align_bracket 64 13 8 (by decide) (by decide) (by decide)⟩

/-- C17: both alignment functions are monotone in `x`.  For `d > 0` and
`x <= y < 2 ^ w`, `mp_align_down x d <= mp_align_down y d`; when `y + d - 1` is
representable as `ssize_t`, also `mp_align_up x d <= mp_align_up y d`. -/
theorem mp_align_monotone (w : Nat) (x y d : Nat) (hw : 0 < w) (hd : 0 < d)
    (hxy : x ≤ y) (hy : y < 2 ^ w) :
    (∃ lx ly : Nat, mp_align_down w x d = some lx ∧ mp_align_down w y d = some ly ∧
      lx ≤ ly) ∧
    ((y : Int) + d - 1 ≤ SSIZE_MAX w →
      ∃ ux uy : Int, mp_align_up w x d = some ux ∧ mp_align_up w y d = some uy ∧
        ux ≤ uy) := by
  have hdi : (0 : Int) < d := by exact_mod_cast hd
  constructor
  · exact ⟨_, _, mp_align_down_eq (lt_of_le_of_lt hxy hy) hd, mp_align_down_eq hy hd,
      Nat.mul_le_mul_right d (Nat.div_le_div_right hxy)⟩
  · intro hov
    have hxyi : (x : Int) ≤ y := by exact_mod_cast hxy
    obtain ⟨hiy, _, _⟩ := addr_bounds hw hd hov
    obtain ⟨hix, _, _⟩ := addr_bounds (a := x) hw hd (by omega)
    obtain ⟨_, _, _, h4⟩ := align_up_value_spec (x := (x : Int)) (by omega) hdi
    obtain ⟨k1, k2, _, _⟩ := align_up_value_spec (x := (y : Int)) (by omega) hdi
    exact ⟨_, _, mp_align_up_eq hw hix.1 hdi (by omega), mp_align_up_eq hw hiy.1 hdi hov,
      h4 _ k1 (by omega)⟩

/-- Witness for C17 at width 64: `x = 13`, `y = 17`, `d = 8`. -/
theorem mp_align_monotone_witness :
    (0 < 64 ∧ 0 < 8 ∧ 13 ≤ 17 ∧ 17 < 2 ^ 64) ∧
    (∃ lx ly : Nat, mp_align_down 64 13 8 = some lx ∧ mp_align_down 64 17 8 = some ly ∧
      lx ≤ ly) ∧
    (((17 : Nat) : Int) + (8 : Nat) - 1 ≤ SSIZE_MAX 64) ∧
    (∃ ux uy : Int, mp_align_up 64 (13 : Nat) (8 : Nat) = some ux ∧
      mp_align_up 64 (17 : Nat) (8 : Nat) = some uy ∧ ux ≤ uy) ∧
    mp_align_up 64 13 8 = some 16 ∧ mp_align_up 64 17 8 = some 24 ∧
    mp_align_down 64 13 8 = some 8 ∧ mp_align_down 64 17 8 = some 16 :=
  ⟨by decide,
    (mp_align_monotone 64 13 17 8 (by decide) (by decide) (by decide) (by decide)).1,
    by decide,
    (mp_align_monotone 64 13 17 8 (by decide) (by decide) (by decide) (by decide)).2
      (by decide),
    by decide, by decide, by decide, by decide⟩

/-! ## The offsets applied by the pointer variants -/

end Mprompt
